import Mathlib

/-!
Verification of the VRController OpenNI frame-processing pipeline
(`openniutil.h`, `openniapplication.cpp`).

Modelling conventions:
* C `float`/`double` values are modelled by `ℚ`.  The only place where the
  finiteness of machine floats matters for the verified properties is the
  division `|dz| / |dx|` inside `rotationFrom2Joints`: in IEEE arithmetic
  `0.0 / 0.0` is NaN, `std::atan` of NaN is NaN, and NaN then propagates
  through the whole computation (every comparison against NaN is false).
  We therefore model a possibly-NaN float as `Option ℚ`, with `none`
  standing for NaN; the division of a positive numerator by zero gives
  positive infinity, whose arctangent is 90 degrees, and that value is
  modelled directly (it is never used by any reachable branch).
* `std::atan(x) * RAD2DEG` for `x ≥ 0` is a transcendental function with
  range [0, 90); the embedding is parametric in a function `atanDeg`
  together with the hypotheses (range, strict positivity on positive
  arguments) that the mathematical arctangent satisfies.
* C `int` casts of floats truncate toward zero, modelled by `truncQ`;
  `int / int` division in C truncates toward zero, modelled by `Int.div`.
-/

namespace OpenNIUtil

/-- Position of a joint, mirroring the X/Y/Z components of `XnVector3D`. -/
structure Position where
  X : ℚ
  Y : ℚ
  Z : ℚ
deriving DecidableEq

/-- Mirrors `XnSkeletonJointPosition`: a position plus a confidence. -/
structure JointInfo where
  fConfidence : ℚ
  position : Position
deriving DecidableEq

/-- Mirrors `OpenNIUtil::Joint` (the joint-type tag and projective position
are irrelevant to the verified claims and omitted). -/
structure Joint where
  isActive : Bool
  info : JointInfo
deriving DecidableEq

/-- Mirrors `OpenNIUtil::BodyPart`. -/
structure BodyPart where
  hip : Joint
  knee : Joint
  foot : Joint
  shoulder : Joint
deriving DecidableEq

/-- Mirrors `OpenNIUtil::User` (fields used by the verified functions). -/
structure User where
  id : ℕ
  isTracking : Bool
  timestamp : ℤ
  torsoJoint : Joint
  leftPart : BodyPart
  rightPart : BodyPart
  previousLeftPart : BodyPart
  previousRightPart : BodyPart
  rotation : ℤ
  rotationConfidence : ℚ
  walkSpeed : ℤ
  walkSpeedConfidence : ℚ
  numberOfFramesWithoutMove : ℤ
deriving DecidableEq

/-- `MIN_COMPUTED_WALKSPEED` from openniutil.h line 32. -/
def MIN_COMPUTED_WALKSPEED : ℤ := 40

/-- C truncation toward zero of a real value to an `int`
(`static_cast<int>`). -/
def truncQ (q : ℚ) : ℤ := if 0 ≤ q then ⌊q⌋ else ⌈q⌉

/-- Mirrors `isJointAcceptable` (openniutil.h lines 130-133):
`joint.isActive && joint.info.fConfidence >= 0.6`. -/
def isJointAcceptable (joint : Joint) : Bool :=
  joint.isActive && decide ((3 : ℚ) / 5 ≤ joint.info.fConfidence)

/-- Mirrors `reduceAngle` (openniutil.h lines 136-143). -/
def reduceAngle (angle : ℚ) : ℚ :=
  if angle ≥ 360 then angle - 360
  else if angle < 0 then 360 + angle
  else angle

/-- The planar-angle computation of `rotationFrom2Joints`
(openniutil.h lines 180-221): the raw rotation before smoothing.
The quotient `|dz| / |dx|` is evaluated unconditionally in the source;
in IEEE float arithmetic `0/0` is NaN (modelled `none`) and `p/0` for
`p > 0` is positive infinity whose arctangent is 90 degrees.  The NaN
propagates through every arithmetic operation, hence `Option.map`. -/
def rotationRaw (atanDeg : ℚ → ℚ) (rightJoint leftJoint : Joint) : Option ℚ :=
  let rz := rightJoint.info.position.Z
  let lz := leftJoint.info.position.Z
  let rx := rightJoint.info.position.X
  let lx := leftJoint.info.position.X
  let angle : Option ℚ :=
    if |rx - lx| = 0 then (if |rz - lz| = 0 then none else some 90)
    else some (atanDeg (|rz - lz| / |rx - lx|))
  -- 0
  if rz = lz ∧ rx > lx then some 0
  -- 90
  else if rx = lx ∧ rz > lz then some 90
  -- 180
  else if rz = lz ∧ rx < lx then some 180
  -- 270 (the source, apparently by mistake, assigns 90 here as well)
  else if rx = lx ∧ rz < lz then some 90
  -- 0 - 180
  else if rz < lz then
    (if rx > lx then angle else angle.map (fun a => 180 - a))
  -- 180 - 360
  else
    (if rx < lx then angle.map (fun a => 180 + a)
     else angle.map (fun a => 360 - a))

/-- The wrap adjustment of the smoothing (openniutil.h lines 229-238):
when the difference exceeds 180 degrees, 360 is added to the lower of
rotation and previous rotation.  Returns the adjusted pair
(rotation, previousRotation). -/
def smoothWrap (rotation previousRotation : ℚ) : ℚ × ℚ :=
  if |rotation - previousRotation| > 180 then
    (if rotation < previousRotation then (rotation + 360, previousRotation)
     else (rotation, previousRotation + 360))
  else (rotation, previousRotation)

/-- The clamp of the smoothing (openniutil.h lines 242-255): when the
difference of the pair exceeds the margin, the rotation is replaced by
the previous rotation plus or minus the margin. -/
def smoothClamp (margin : ℚ) (p : ℚ × ℚ) : ℚ :=
  let diffRotation := p.1 - p.2
  if |diffRotation| > margin then
    (if diffRotation > 0 then p.2 + margin else p.2 - margin)
  else p.1

/-- The final re-normalization of the smoothing
(openniutil.h lines 257-258): one subtraction of 360 when needed. -/
def smoothRenorm (rotation : ℚ) : ℚ :=
  if rotation ≥ 360 then rotation - 360 else rotation

/-- The smoothing section of `rotationFrom2Joints`
(openniutil.h lines 227-259), composed of the wrap adjustment, the
clamp with margin `55.0f / frequency`, and the re-normalization.
A NaN rotation (`none`) passes through unchanged: in the source every
comparison involving NaN is false, so no branch alters it. -/
def smoothRotation (frequency : ℤ) (previousRotation : ℚ) :
    Option ℚ → Option ℚ
  | none => none
  | some rotation =>
    if previousRotation ≠ -1 then
      some (smoothRenorm
        (smoothClamp (55 / (frequency : ℚ))
          (smoothWrap rotation previousRotation)))
    else some rotation

/-- Mirrors `rotationFrom2Joints` (openniutil.h lines 176-270).  Returns
the rotation (a float, possibly NaN) and the value written to
`*resultConfidence` (when the pointer is non-null). -/
def rotationFrom2Joints (atanDeg : ℚ → ℚ) (frequency : ℤ)
    (rightJoint leftJoint : Joint) (previousRotation : ℚ) :
    Option ℚ × ℚ :=
  if isJointAcceptable rightJoint && isJointAcceptable leftJoint then
    (smoothRotation frequency previousRotation
       (rotationRaw atanDeg rightJoint leftJoint),
     (leftJoint.info.fConfidence + 1) * (rightJoint.info.fConfidence + 1))
  else
    (some (-1), -1)

/-- The aggregation section of `rotationForUser` (openniutil.h lines
274-308), taking the four per-pair estimates after their
`static_cast<int>` truncation.  The comparison `rotations[i] > 180.0f`
and the additions with `360.0f` are exact on these integer values. -/
def rotationForUserAggregate (r0 r1 r2 r3 : ℤ) : ℤ :=
  let rotations := [r0, r1, r2, r3]
  let valid := rotations.filter (fun v => v ≠ -1)
  let rotSum := (valid.map (fun v => if v > 180 then v - 360 else v)).sum
  let rotCount : ℤ := valid.length
  if rotCount ≠ 0 then truncQ (reduceAngle ((rotSum.tdiv rotCount : ℤ) : ℚ))
  else -1

/-- Mirrors `walkSpeedForUser` (openniutil.h lines 311-370).  `sqrtQ`
stands for `std::sqrt`; its value is irrelevant to the verified claims.
Returns the speed and the value written to `*resultConfidence`, `none`
when the slot is left untouched.  In the source the left-foot
acceptability test is nested inside the right-foot one; `cantCompute`
is false exactly when all four tests pass. -/
def walkSpeedForUser (sqrtQ : ℚ → ℚ) (frequency : ℤ) (user : User)
    (previousTimestamp : ℤ) (previousSpeed : ℤ) : ℤ × Option ℚ :=
  let cantCompute :=
    !(isJointAcceptable user.rightPart.foot &&
      isJointAcceptable user.previousRightPart.foot &&
      (isJointAcceptable user.leftPart.foot &&
       isJointAcceptable user.previousLeftPart.foot))
  if cantCompute then (-1, none)
  else
    let rdx := user.previousRightPart.foot.info.position.X
               - user.rightPart.foot.info.position.X
    let rdz := user.previousRightPart.foot.info.position.Z
               - user.rightPart.foot.info.position.Z
    let ldx := user.previousLeftPart.foot.info.position.X
               - user.leftPart.foot.info.position.X
    let ldz := user.previousLeftPart.foot.info.position.Z
               - user.leftPart.foot.info.position.Z
    let resultConfidence :=
      (user.rightPart.foot.info.fConfidence + 1)
      * (user.previousRightPart.foot.info.fConfidence + 1)
      * (user.leftPart.foot.info.fConfidence + 1)
      * (user.previousLeftPart.foot.info.fConfidence + 1)
    let rightDiff := sqrtQ (rdx ^ 2 + rdz ^ 2)
    let leftDiff := sqrtQ (ldx ^ 2 + ldz ^ 2)
    -- average of the two displacements (in mm)
    let diff := (rightDiff + leftDiff) / 2
    let diffTime : ℤ := user.timestamp - previousTimestamp
    -- speed in cm/s
    let speed : ℤ := truncQ ((diff * (1 / 10)) / ((diffTime : ℚ) * (1 / 1000)))
    let speed1 : ℤ :=
      if previousSpeed ≠ -1 then
        let margin : ℤ := truncQ (100 / (frequency : ℚ))
        if |speed - previousSpeed| > margin then
          (if speed < previousSpeed then previousSpeed - margin
           else previousSpeed + margin)
        else speed
      else speed
    (speed1, some resultConfidence)

/-- The `numberOfFramesWithoutMove` update of the frame loop
(openniapplication.cpp lines 362-370): on the first loop iteration the
field keeps its initializer 0 and is not computed; afterwards it is the
previous counter plus one when the previous walk speed was valid and at
most `MIN_COMPUTED_WALKSPEED`, and 0 otherwise. -/
def nextNumberOfFramesWithoutMove (firstLoop : Bool) (previousUser : User) : ℤ :=
  if firstLoop then 0
  else if previousUser.walkSpeed ≠ -1 ∧
          previousUser.walkSpeed ≤ MIN_COMPUTED_WALKSPEED then
    previousUser.numberOfFramesWithoutMove + 1
  else 0

end OpenNIUtil

namespace OpenNIApplication

/-- The mutex-guarded flags of `OpenNIApplication`
(openniapplication.cpp).  `initFlag` mirrors `_init`. -/
structure AppState where
  initFlag : Bool
  stopRequested : Bool
  started : Bool
  stopped : Bool
deriving DecidableEq

/-- Mirrors `cleanup` (openniapplication.cpp lines 122-132): releases the
generator and context handles (no observable state here) and sets the
`_stopped` flag under its mutex. -/
def cleanup (s : AppState) : AppState := { s with stopped := true }

/-- Mirrors `isStarted` (openniapplication.cpp lines 140-146). -/
def isStarted (s : AppState) : Bool := s.started

/-- Mirrors `isStopped` (openniapplication.cpp lines 148-154). -/
def isStopped (s : AppState) : Bool := s.stopped

/-- Mirrors `requestStop` (openniapplication.cpp lines 157-166): sets the
stop-request flag, then calls `cleanup` directly when the frame loop has
not started. -/
def requestStop (s : AppState) : AppState :=
  let s1 : AppState := { s with stopRequested := true }
  if isStarted s1 then s1 else cleanup s1

/-- The frame loop of `start` (openniapplication.cpp lines 300-406),
abstracted to the lifecycle flags: each iteration first checks the
stop-request flag and, when set, runs `cleanup` and exits; otherwise it
processes one frame (setting `_started` at the end of the first one).
The fuel bounds the number of iterations; the returned number counts the
frame bodies that were executed. -/
def startLoopAux : ℕ → AppState → AppState × ℕ
  | 0, s => (s, 0)
  | fuel + 1, s =>
    if s.stopRequested then (cleanup s, 0)
    else
      let s1 : AppState := { s with started := true }
      let r := startLoopAux fuel s1
      (r.1, r.2 + 1)

/-- Calibration statuses distinguished by `calibrationEndCallback`:
`XN_CALIBRATION_STATUS_OK`, `XN_CALIBRATION_STATUS_MANUAL_ABORT`, and
every other (failure) code. -/
inductive XnCalibrationStatus where
  | ok : XnCalibrationStatus
  | manualAbort : XnCalibrationStatus
  | otherFailure (code : ℤ) : XnCalibrationStatus
deriving DecidableEq

/-- The command a calibration-complete callback issues back to the
skeleton capability. -/
inductive CalibrationAction where
  | startTracking (userID : ℕ) : CalibrationAction
  | startCalibration (userID : ℕ) : CalibrationAction
  | noAction : CalibrationAction
deriving DecidableEq

/-- Mirrors `calibrationEndCallback` (openniapplication.cpp lines 72-92):
on success start tracking the user; on manual abort only log; on any
other failure re-request calibration for the same user. -/
def calibrationEndCallback (userID : ℕ)
    (calibrationStatus : XnCalibrationStatus) : CalibrationAction :=
  if calibrationStatus = .ok then .startTracking userID
  else if calibrationStatus = .manualAbort then .noAction
  else .startCalibration userID

end OpenNIApplication

namespace OpenNIUtil

/-- Claim C6: `isJointAcceptable` returns true exactly when the joint is
active and its confidence is at least 0.6; in particular it is true at
confidence exactly 0.6 with the active flag set, false below 0.6, and
false whenever the flag is cleared, regardless of confidence. -/
theorem claim_C6_isJointAcceptable (joint : Joint) :
    (isJointAcceptable joint = true ↔
      joint.isActive = true ∧ (3 : ℚ) / 5 ≤ joint.info.fConfidence) ∧
    (joint.info.fConfidence < 3 / 5 → isJointAcceptable joint = false) ∧
    (joint.isActive = false → isJointAcceptable joint = false) := by
  refine ⟨?_, ?_, ?_⟩
  · simp [isJointAcceptable]
  · intro hlt
    simp [isJointAcceptable, not_le.mpr hlt]
  · intro hact
    simp [isJointAcceptable, hact]

/-- Witness for C6 at a concrete joint with confidence exactly 0.6. -/
theorem claim_C6_isJointAcceptable_witness :
    isJointAcceptable ⟨true, ⟨3 / 5, ⟨0, 0, 0⟩⟩⟩ = true :=
  (claim_C6_isJointAcceptable ⟨true, ⟨3 / 5, ⟨0, 0, 0⟩⟩⟩).1.mpr
    ⟨rfl, le_refl _⟩

/-- Claim C4: `walkSpeedForUser` returns the sentinel -1 whenever any one
of the four foot joints (current left, current right, previous left,
previous right) fails the acceptability predicate, and then the output
confidence slot is left unmodified (`none`). -/
theorem claim_C4_walkSpeed_sentinel (sqrtQ : ℚ → ℚ) (frequency : ℤ)
    (user : User) (previousTimestamp previousSpeed : ℤ)
    (h : ¬(isJointAcceptable user.rightPart.foot = true ∧
           isJointAcceptable user.previousRightPart.foot = true ∧
           isJointAcceptable user.leftPart.foot = true ∧
           isJointAcceptable user.previousLeftPart.foot = true)) :
    walkSpeedForUser sqrtQ frequency user previousTimestamp previousSpeed
      = (-1, none) := by
  have hc : (isJointAcceptable user.rightPart.foot &&
      isJointAcceptable user.previousRightPart.foot &&
      (isJointAcceptable user.leftPart.foot &&
       isJointAcceptable user.previousLeftPart.foot)) = false := by
    rcases hb : (isJointAcceptable user.rightPart.foot &&
      isJointAcceptable user.previousRightPart.foot &&
      (isJointAcceptable user.leftPart.foot &&
       isJointAcceptable user.previousLeftPart.foot)) with _ | _
    · rfl
    · exfalso
      simp only [Bool.and_eq_true] at hb
      exact h ⟨hb.1.1, hb.1.2, hb.2.1, hb.2.2⟩
  simp only [walkSpeedForUser, hc, Bool.not_false, if_true]

/-- A user whose left foot is inactive (hence unacceptable); every other
joint is active with confidence 1. -/
def exampleUserBadFoot : User :=
  { id := 1, isTracking := true, timestamp := 1000
    torsoJoint := ⟨true, ⟨1, ⟨0, 0, 0⟩⟩⟩
    leftPart := ⟨⟨true, ⟨1, ⟨0, 0, 0⟩⟩⟩, ⟨true, ⟨1, ⟨0, 0, 0⟩⟩⟩,
                 ⟨false, ⟨1, ⟨0, 0, 0⟩⟩⟩, ⟨true, ⟨1, ⟨0, 0, 0⟩⟩⟩⟩
    rightPart := ⟨⟨true, ⟨1, ⟨1, 0, 0⟩⟩⟩, ⟨true, ⟨1, ⟨1, 0, 0⟩⟩⟩,
                  ⟨true, ⟨1, ⟨1, 0, 0⟩⟩⟩, ⟨true, ⟨1, ⟨1, 0, 0⟩⟩⟩⟩
    previousLeftPart := ⟨⟨true, ⟨1, ⟨0, 0, 0⟩⟩⟩, ⟨true, ⟨1, ⟨0, 0, 0⟩⟩⟩,
                         ⟨true, ⟨1, ⟨0, 0, 0⟩⟩⟩, ⟨true, ⟨1, ⟨0, 0, 0⟩⟩⟩⟩
    previousRightPart := ⟨⟨true, ⟨1, ⟨1, 0, 0⟩⟩⟩, ⟨true, ⟨1, ⟨1, 0, 0⟩⟩⟩,
                          ⟨true, ⟨1, ⟨1, 0, 0⟩⟩⟩, ⟨true, ⟨1, ⟨1, 0, 0⟩⟩⟩⟩
    rotation := -1, rotationConfidence := -1
    walkSpeed := -1, walkSpeedConfidence := -1
    numberOfFramesWithoutMove := 0 }

/-- Witness for C4: with an inactive left foot the speed is -1 and the
confidence slot stays untouched. -/
theorem claim_C4_walkSpeed_sentinel_witness :
    walkSpeedForUser (fun q => q) 30 exampleUserBadFoot 0 50 = (-1, none) :=
  claim_C4_walkSpeed_sentinel (fun q => q) 30 exampleUserBadFoot 0 50
    (by simp [isJointAcceptable, exampleUserBadFoot])

/-- Claim C7: after the first loop iteration, `numberOfFramesWithoutMove`
becomes the previous counter plus 1 when the previous walk speed was
valid and at most `MIN_COMPUTED_WALKSPEED` (40), and 0 otherwise; on the
very first loop iteration it keeps its initial value 0. -/
theorem claim_C7_framesWithoutMove (previousUser : User) :
    nextNumberOfFramesWithoutMove true previousUser = 0 ∧
    (previousUser.walkSpeed ≠ -1 →
     previousUser.walkSpeed ≤ MIN_COMPUTED_WALKSPEED →
     nextNumberOfFramesWithoutMove false previousUser
       = previousUser.numberOfFramesWithoutMove + 1) ∧
    (previousUser.walkSpeed = -1 ∨
       MIN_COMPUTED_WALKSPEED < previousUser.walkSpeed →
     nextNumberOfFramesWithoutMove false previousUser = 0) := by
  refine ⟨rfl, ?_, ?_⟩
  · intro h1 h2
    simp [nextNumberOfFramesWithoutMove, h1, h2]
  · intro h
    rcases h with h | h
    · simp [nextNumberOfFramesWithoutMove, h]
    · simp [nextNumberOfFramesWithoutMove, not_le.mpr h]

/-- Witness for C7: a previous walk speed of 30 (valid and at most 40)
increments the counter from 7 to 8. -/
theorem claim_C7_framesWithoutMove_witness :
    nextNumberOfFramesWithoutMove false
      { exampleUserBadFoot with walkSpeed := 30, numberOfFramesWithoutMove := 7 }
      = 7 + 1 :=
  (claim_C7_framesWithoutMove
    { exampleUserBadFoot with walkSpeed := 30, numberOfFramesWithoutMove := 7 }).2.1
    (by simp) (by simp [MIN_COMPUTED_WALKSPEED])

end OpenNIUtil

namespace OpenNIApplication

/-- Claim C8: calling `requestStop` while `isStarted` is false runs
`cleanup` immediately and synchronously inside the call, after which
`isStopped` is true, and the frame loop of `start`, whenever it runs,
executes zero frame bodies. -/
theorem claim_C8_requestStop_before_start (s : AppState)
    (h : isStarted s = false) :
    requestStop s = cleanup { s with stopRequested := true } ∧
    isStopped (requestStop s) = true ∧
    ∀ fuel, (startLoopAux fuel (requestStop s)).2 = 0 := by
  have hreq : requestStop s = cleanup { s with stopRequested := true } := by
    simp only [requestStop, isStarted] at *
    simp [h]
  refine ⟨hreq, ?_, ?_⟩
  · rw [hreq]; rfl
  · intro fuel
    rw [hreq]
    cases fuel with
    | zero => rfl
    | succ n => simp [startLoopAux, cleanup]

/-- Witness for C8 on the freshly initialized state. -/
theorem claim_C8_requestStop_before_start_witness :
    isStopped (requestStop ⟨true, false, false, false⟩) = true ∧
    (startLoopAux 100 (requestStop ⟨true, false, false, false⟩)).2 = 0 :=
  ⟨(claim_C8_requestStop_before_start ⟨true, false, false, false⟩ rfl).2.1,
   (claim_C8_requestStop_before_start ⟨true, false, false, false⟩ rfl).2.2 100⟩

/-- Claim C9: a calibration-complete callback with a non-success status
never starts tracking: a manual abort triggers no action, any other
failure re-requests calibration for the same user id, and tracking is
requested only on success. -/
theorem claim_C9_calibrationEndCallback (userID : ℕ)
    (st : OpenNIApplication.XnCalibrationStatus) :
    (∀ u, st ≠ .ok → calibrationEndCallback userID st ≠ .startTracking u) ∧
    (st = .manualAbort → calibrationEndCallback userID st = .noAction) ∧
    (st ≠ .ok → st ≠ .manualAbort →
      calibrationEndCallback userID st = .startCalibration userID) ∧
    (∀ u, calibrationEndCallback userID st = .startTracking u → st = .ok) := by
  cases st <;> simp [calibrationEndCallback]

/-- Witness for C9: a manual abort for user 3 triggers no action. -/
theorem claim_C9_calibrationEndCallback_witness :
    calibrationEndCallback 3 .manualAbort = .noAction :=
  (claim_C9_calibrationEndCallback 3 .manualAbort).2.1 rfl

end OpenNIApplication

namespace OpenNIUtil

/-- Claim C5: for acceptable joints and no previous rotation (-1, so the
smoothing is skipped), the axis-aligned special cases hold: equal Z with
right X greater gives 0 degrees, equal X with right Z greater gives 90
degrees, and equal Z with right X smaller gives 180 degrees. -/
theorem claim_C5_axis_special_cases (atanDeg : ℚ → ℚ) (frequency : ℤ)
    (r l : Joint) (hr : isJointAcceptable r = true)
    (hl : isJointAcceptable l = true) :
    (r.info.position.Z = l.info.position.Z →
     r.info.position.X > l.info.position.X →
     (rotationFrom2Joints atanDeg frequency r l (-1)).1 = some 0) ∧
    (r.info.position.X = l.info.position.X →
     r.info.position.Z > l.info.position.Z →
     (rotationFrom2Joints atanDeg frequency r l (-1)).1 = some 90) ∧
    (r.info.position.Z = l.info.position.Z →
     r.info.position.X < l.info.position.X →
     (rotationFrom2Joints atanDeg frequency r l (-1)).1 = some 180) := by
  have hand : (isJointAcceptable r && isJointAcceptable l) = true := by
    simp [hr, hl]
  refine ⟨?_, ?_, ?_⟩
  · intro hz hx
    simp only [rotationFrom2Joints, hand, if_true]
    have hraw : rotationRaw atanDeg r l = some 0 := by
      simp only [rotationRaw]
      rw [if_pos ⟨hz, hx⟩]
    rw [hraw]
    simp [smoothRotation]
  · intro hx hz
    simp only [rotationFrom2Joints, hand, if_true]
    have hraw : rotationRaw atanDeg r l = some 90 := by
      simp only [rotationRaw]
      rw [if_neg (by rintro ⟨h1, h2⟩; exact absurd hx (ne_of_gt h2)),
          if_pos ⟨hx, hz⟩]
    rw [hraw]
    simp [smoothRotation]
  · intro hz hx
    simp only [rotationFrom2Joints, hand, if_true]
    have hraw : rotationRaw atanDeg r l = some 180 := by
      simp only [rotationRaw]
      rw [if_neg (by rintro ⟨h1, h2⟩; exact absurd h2 (not_lt.mpr (le_of_lt hx))),
          if_neg (by rintro ⟨h1, h2⟩; exact absurd h2 (by rw [hz]; exact lt_irrefl _)),
          if_pos ⟨hz, hx⟩]
    rw [hraw]
    simp [smoothRotation]

/-- Truncating division of a sum bounded by its length times the bounds
-179 and 180 stays within those bounds. -/
lemma tdiv_bounds_of_sum (s k : ℤ) (hk : 0 < k) (hlo : -179 * k ≤ s)
    (hhi : s ≤ 180 * k) : -179 ≤ s.tdiv k ∧ s.tdiv k ≤ 180 := by
  rcases le_or_lt 0 s with hs | hs
  · rw [Int.tdiv_eq_ediv hs (le_of_lt hk)]
    constructor
    · have h0 : (0 : ℤ) ≤ s / k := Int.ediv_nonneg hs (le_of_lt hk)
      linarith
    · exact Int.ediv_le_of_le_mul hk hhi
  · have hs' : (0 : ℤ) ≤ -s := by linarith
    have hneg : s.tdiv k = -((-s).tdiv k) := by
      rw [Int.neg_tdiv, neg_neg]
    rw [hneg, Int.tdiv_eq_ediv hs' (le_of_lt hk)]
    have hup : (-s) / k ≤ 179 := Int.ediv_le_of_le_mul hk (by linarith)
    have h0 : (0 : ℤ) ≤ (-s) / k := Int.ediv_nonneg hs' (le_of_lt hk)
    constructor <;> linarith

/-- Each wrap-adjusted estimate lies in [-179, 180] when the raw estimate
is a valid rotation in [0, 360). -/
lemma adjusted_estimate_bounds (v : ℤ) (h : v = -1 ∨ (0 ≤ v ∧ v < 360))
    (hne : v ≠ -1) :
    -179 ≤ (if v > 180 then v - 360 else v) ∧
    (if v > 180 then v - 360 else v) ≤ 180 := by
  rcases h with h | h
  · exact absurd h hne
  · split_ifs <;> omega

/-- Summing list elements bounded in [-179, 180] keeps the sum between
-179 and 180 times the length. -/
lemma sum_bounds_of_forall (l : List ℤ) (f : ℤ → ℤ)
    (h : ∀ v ∈ l, -179 ≤ f v ∧ f v ≤ 180) :
    -179 * (l.length : ℤ) ≤ (l.map f).sum ∧
    (l.map f).sum ≤ 180 * (l.length : ℤ) := by
  induction l with
  | nil => simp
  | cons a t ih =>
    have ha := h a (List.mem_cons_self a t)
    have ht := ih (fun v hv => h v (List.mem_cons_of_mem a hv))
    simp only [List.map_cons, List.sum_cons, List.length_cons]
    push_cast
    constructor <;> linarith [ha.1, ha.2, ht.1, ht.2]

/-- `truncQ` is the identity on integer values. -/
lemma truncQ_intCast (n : ℤ) : truncQ (n : ℚ) = n := by
  unfold truncQ
  split_ifs <;> simp

/-- `reduceAngle` followed by the int cast maps an integer average in
[-179, 180] into [0, 360). -/
lemma truncQ_reduceAngle_range (n : ℤ) (h1 : -179 ≤ n) (h2 : n ≤ 180) :
    0 ≤ truncQ (reduceAngle (n : ℚ)) ∧ truncQ (reduceAngle (n : ℚ)) < 360 := by
  unfold reduceAngle
  have hn360 : ¬((n : ℚ) ≥ 360) := by
    push_neg
    have : (n : ℚ) ≤ 180 := by exact_mod_cast h2
    linarith
  rw [if_neg hn360]
  by_cases hn : (n : ℚ) < 0
  · rw [if_pos hn]
    have : (360 : ℚ) + n = ((360 + n : ℤ) : ℚ) := by push_cast; ring
    rw [this, truncQ_intCast]
    have hn' : n < 0 := by exact_mod_cast hn
    omega
  · rw [if_neg hn]
    rw [truncQ_intCast]
    have hn' : 0 ≤ n := by
      push_neg at hn
      exact_mod_cast hn
    omega

/-- Claim C3: `rotationForUser` aggregates the four per-pair estimates by
replacing every value strictly greater than 180 with the value minus 360,
averaging exactly the values that are not -1, and re-normalizing the
average into [0, 360); if all four estimates are -1 the rotation is -1;
and the inputs 10, 350, -1, -1 aggregate to 0. -/
theorem claim_C3_rotationForUserAggregate :
    (∀ r0 r1 r2 r3 : ℤ,
      (r0 = -1 ∧ r1 = -1 ∧ r2 = -1 ∧ r3 = -1 →
        rotationForUserAggregate r0 r1 r2 r3 = -1) ∧
      ((∀ v ∈ [r0, r1, r2, r3], v = -1 ∨ (0 ≤ v ∧ v < 360)) →
       ¬(r0 = -1 ∧ r1 = -1 ∧ r2 = -1 ∧ r3 = -1) →
        0 ≤ rotationForUserAggregate r0 r1 r2 r3 ∧
        rotationForUserAggregate r0 r1 r2 r3 < 360)) ∧
    rotationForUserAggregate 10 350 (-1) (-1) = 0 := by
  constructor
  · intro r0 r1 r2 r3
    constructor
    · intro ⟨h0, h1, h2, h3⟩
      subst h0; subst h1; subst h2; subst h3
      rfl
    · intro hvals hnotall
      have hex : ∃ v ∈ [r0, r1, r2, r3], v ≠ -1 := by
        by_contra hcon
        push_neg at hcon
        exact hnotall ⟨hcon r0 (by simp), hcon r1 (by simp),
          hcon r2 (by simp), hcon r3 (by simp)⟩
      simp only [rotationForUserAggregate]
      set valid := [r0, r1, r2, r3].filter (fun v => v ≠ -1) with hvalid
      have hlen : 0 < valid.length := by
        rcases hex with ⟨v, hvmem, hvne⟩
        have : v ∈ valid := by
          rw [hvalid]
          exact List.mem_filter.mpr ⟨hvmem, by simpa using hvne⟩
        exact List.length_pos.mpr (List.ne_nil_of_mem this)
      have hlenQ : ((valid.length : ℤ) : ℚ) ≠ 0 := by
        exact_mod_cast Nat.pos_iff_ne_zero.mp hlen
      have hbounds : ∀ v ∈ valid,
          -179 ≤ (if v > 180 then v - 360 else v) ∧
          (if v > 180 then v - 360 else v) ≤ 180 := by
        intro v hv
        rw [hvalid] at hv
        have hmem := (List.mem_filter.mp hv).1
        have hne : v ≠ -1 := by simpa using (List.mem_filter.mp hv).2
        exact adjusted_estimate_bounds v (hvals v hmem) hne
      have hsum := sum_bounds_of_forall valid _ hbounds
      have hk : (0 : ℤ) < (valid.length : ℤ) := by exact_mod_cast hlen
      have htd := tdiv_bounds_of_sum _ _ hk hsum.1 hsum.2
      have hcount : ((valid.length : ℤ) : ℤ) ≠ 0 := by omega
      rw [if_pos (by exact_mod_cast hcount)]
      exact truncQ_reduceAngle_range _ htd.1 htd.2
  · norm_num [rotationForUserAggregate, truncQ, reduceAngle]

/-- Witness for C3: applying the theorem to the concrete estimates
10, 350, -1, -1 (each valid or unknown, not all unknown) shows the
aggregate lies in [0, 360). -/
theorem claim_C3_rotationForUserAggregate_witness :
    0 ≤ rotationForUserAggregate 10 350 (-1) (-1) ∧
    rotationForUserAggregate 10 350 (-1) (-1) < 360 :=
  (claim_C3_rotationForUserAggregate.1 10 350 (-1) (-1)).2
    (by intro v hv; simp at hv; rcases hv with h | h | h | h <;> omega)
    (by simp)

/-- Claim C2: for a positive frequency and a defined previous speed, when
`walkSpeedForUser` actually computes a speed (all four foot joints
acceptable; the elapsed time is nonzero, as a zero elapsed time makes the
float division non-finite), the returned speed differs from the previous
speed by at most 100/frequency cm/s.  The int margin `100.0f / frequency`
is truncated, hence at most 100/frequency. -/
theorem claim_C2_walkSpeed_smoothing (sqrtQ : ℚ → ℚ) (frequency : ℤ)
    (hf : 0 < frequency) (user : User)
    (previousTimestamp previousSpeed : ℤ)
    (hacc : isJointAcceptable user.rightPart.foot = true ∧
            isJointAcceptable user.previousRightPart.foot = true ∧
            isJointAcceptable user.leftPart.foot = true ∧
            isJointAcceptable user.previousLeftPart.foot = true)
    (_hts : user.timestamp ≠ previousTimestamp)
    (hprev : previousSpeed ≠ -1) :
    |((walkSpeedForUser sqrtQ frequency user previousTimestamp
        previousSpeed).1 : ℚ) - (previousSpeed : ℚ)|
      ≤ 100 / (frequency : ℚ) := by
  have hc : (isJointAcceptable user.rightPart.foot &&
      isJointAcceptable user.previousRightPart.foot &&
      (isJointAcceptable user.leftPart.foot &&
       isJointAcceptable user.previousLeftPart.foot)) = true := by
    simp [hacc.1, hacc.2.1, hacc.2.2.1, hacc.2.2.2]
  have hfQ : (0 : ℚ) < (frequency : ℚ) := by exact_mod_cast hf
  have hmpos : (0 : ℚ) ≤ 100 / (frequency : ℚ) :=
    le_of_lt (div_pos (by norm_num) hfQ)
  -- the truncated int margin and its relation to 100/frequency
  set marginQ : ℚ := 100 / (frequency : ℚ) with hmQ
  have hmargin_eq : truncQ marginQ = ⌊marginQ⌋ := if_pos hmpos
  have hmargin_le : ((truncQ marginQ : ℤ) : ℚ) ≤ marginQ := by
    rw [hmargin_eq]
    exact Int.floor_le marginQ
  have hmargin_nonneg : (0 : ℤ) ≤ truncQ marginQ := by
    rw [hmargin_eq]
    exact Int.le_floor.mpr (by simpa using hmpos)
  -- reduce the program to its smoothing step
  simp only [walkSpeedForUser, hc, Bool.not_true, Bool.false_eq_true,
    if_false, hprev, ne_eq, not_false_eq_true, if_true]
  set speed : ℤ := truncQ
    ((((sqrtQ ((user.previousRightPart.foot.info.position.X
        - user.rightPart.foot.info.position.X) ^ 2 +
        (user.previousRightPart.foot.info.position.Z
        - user.rightPart.foot.info.position.Z) ^ 2) +
       sqrtQ ((user.previousLeftPart.foot.info.position.X
        - user.leftPart.foot.info.position.X) ^ 2 +
        (user.previousLeftPart.foot.info.position.Z
        - user.leftPart.foot.info.position.Z) ^ 2)) / 2) * (1 / 10)) /
      (((user.timestamp - previousTimestamp : ℤ) : ℚ) * (1 / 1000)))
    with hspeed
  by_cases hclamp : |speed - previousSpeed| > truncQ marginQ
  · rw [if_pos hclamp]
    by_cases hlt : speed < previousSpeed
    · rw [if_pos hlt]
      have : ((previousSpeed - truncQ marginQ : ℤ) : ℚ) - (previousSpeed : ℚ)
          = -((truncQ marginQ : ℤ) : ℚ) := by push_cast; ring
      rw [this, abs_neg, abs_of_nonneg (by exact_mod_cast hmargin_nonneg)]
      exact hmargin_le
    · rw [if_neg hlt]
      have : ((previousSpeed + truncQ marginQ : ℤ) : ℚ) - (previousSpeed : ℚ)
          = ((truncQ marginQ : ℤ) : ℚ) := by push_cast; ring
      rw [this, abs_of_nonneg (by exact_mod_cast hmargin_nonneg)]
      exact hmargin_le
  · rw [if_neg hclamp]
    push_neg at hclamp
    have hcast : |(speed : ℚ) - (previousSpeed : ℚ)|
        = ((|speed - previousSpeed| : ℤ) : ℚ) := by
      push_cast
      rfl
    rw [hcast]
    calc ((|speed - previousSpeed| : ℤ) : ℚ)
        ≤ ((truncQ marginQ : ℤ) : ℚ) := by exact_mod_cast hclamp
      _ ≤ marginQ := hmargin_le

/-- A user with all four foot joints acceptable, used by the C2 witness:
the right foot moved from X 100 to 0 over one second. -/
def exampleUserGoodFeet : User :=
  { exampleUserBadFoot with
    leftPart := ⟨⟨true, ⟨1, ⟨0, 0, 0⟩⟩⟩, ⟨true, ⟨1, ⟨0, 0, 0⟩⟩⟩,
                 ⟨true, ⟨1, ⟨0, 0, 0⟩⟩⟩, ⟨true, ⟨1, ⟨0, 0, 0⟩⟩⟩⟩ }

/-- Witness for C2: with frequency 2 and previous speed 50 the published
speed moves by at most 50 cm/s. -/
theorem claim_C2_walkSpeed_smoothing_witness :
    |((walkSpeedForUser (fun q => q) 2 exampleUserGoodFeet 0 50).1 : ℚ)
      - (50 : ℚ)| ≤ 100 / (2 : ℚ) := by
  have h := claim_C2_walkSpeed_smoothing (fun q => q) 2 (by norm_num)
    exampleUserGoodFeet 0 50
    (by refine ⟨?_, ?_, ?_, ?_⟩ <;>
        simp [isJointAcceptable, exampleUserGoodFeet, exampleUserBadFoot] <;>
        norm_num)
    (by simp [exampleUserGoodFeet, exampleUserBadFoot])
    (by norm_num)
  simpa using h

/-- `smoothClamp` stays between the two components of the pair and moves
at most `margin` away from the previous-rotation component. -/
lemma smoothClamp_spec (margin : ℚ) (p : ℚ × ℚ) (hm : 0 ≤ margin) :
    min p.1 p.2 ≤ smoothClamp margin p ∧
    smoothClamp margin p ≤ max p.1 p.2 ∧
    |smoothClamp margin p - p.2| ≤ margin := by
  have hcl : smoothClamp margin p =
      if |p.1 - p.2| > margin then
        (if p.1 - p.2 > 0 then p.2 + margin else p.2 - margin)
      else p.1 := rfl
  rw [hcl]
  by_cases h1 : |p.1 - p.2| > margin
  · by_cases h2 : p.1 - p.2 > 0
    · rw [if_pos h1, if_pos h2]
      rw [abs_of_pos h2] at h1
      refine ⟨le_trans (min_le_right _ _) (by linarith), ?_, ?_⟩
      · exact le_trans (by linarith : p.2 + margin ≤ p.1) (le_max_left _ _)
      · have he : p.2 + margin - p.2 = margin := by ring
        rw [he, abs_of_nonneg hm]
    · rw [if_pos h1, if_neg h2]
      push_neg at h2
      rw [abs_of_nonpos h2] at h1
      refine ⟨le_trans (min_le_left _ _) (by linarith), ?_, ?_⟩
      · exact le_trans (by linarith : p.2 - margin ≤ p.2) (le_max_right _ _)
      · have he : p.2 - margin - p.2 = -margin := by ring
        rw [he, abs_neg, abs_of_nonneg hm]
  · rw [if_neg h1]
    push_neg at h1
    exact ⟨min_le_left _ _, le_max_left _ _, h1⟩

/-- `smoothWrap` either leaves the pair unchanged, or adds 360 to exactly
one of its components. -/
lemma smoothWrap_spec (rotation previousRotation : ℚ) :
    smoothWrap rotation previousRotation = (rotation, previousRotation) ∨
    smoothWrap rotation previousRotation = (rotation + 360, previousRotation) ∨
    smoothWrap rotation previousRotation = (rotation, previousRotation + 360) := by
  unfold smoothWrap
  split_ifs <;> tauto

/-- When the published value and the previous value both lie in [0, 360)
and their difference equals `d` up to one full turn, the wrap-aware
distance between them is bounded by any bound on `|d|` that is at most
180. -/
lemma wrapDist_of_shift (v prev d m : ℚ) (hv0 : 0 ≤ v) (hv1 : v < 360)
    (hp0 : 0 ≤ prev) (hp1 : prev < 360) (hd : |d| ≤ m) (hm : m ≤ 180)
    (hshift : v - prev = d ∨ v - prev = d + 360 ∨ v - prev = d - 360) :
    min |v - prev| (360 - |v - prev|) ≤ m := by
  rcases abs_cases d with ⟨hda, hds⟩ | ⟨hda, hds⟩ <;>
    rcases hshift with hs | hs | hs
  -- v - prev = d, d ≥ 0
  · refine min_le_of_left_le ?_
    rw [hs, abs_of_nonneg (by linarith)]
    linarith
  -- v - prev = d + 360, d ≥ 0: impossible unless d < 0 (v - prev < 360)
  · refine min_le_of_right_le ?_
    rw [abs_of_nonneg (by linarith)]
    linarith
  -- v - prev = d - 360, d ≥ 0
  · refine min_le_of_right_le ?_
    rw [abs_of_nonpos (by linarith)]
    linarith
  -- v - prev = d, d < 0
  · refine min_le_of_left_le ?_
    rw [hs, abs_of_nonpos (by linarith)]
    linarith
  -- v - prev = d + 360, d < 0
  · refine min_le_of_right_le ?_
    rw [abs_of_nonneg (by linarith)]
    linarith
  -- v - prev = d - 360, d < 0: impossible unless d > 0 (v - prev > -360)
  · refine min_le_of_right_le ?_
    rw [abs_of_nonpos (by linarith)]
    linarith

/-- Full specification of the smoothing on a real (non-NaN) raw rotation:
for a positive frequency and both angles in [0, 360), the smoothed value
stays in [0, 360) and its wrap-aware distance to the previous rotation is
at most 55/frequency. -/
lemma smoothRotation_bound (frequency : ℤ) (hf : 0 < frequency)
    (raw prev : ℚ) (h0 : 0 ≤ raw) (h1 : raw < 360) (hp0 : 0 ≤ prev)
    (hp1 : prev < 360) :
    ∃ v, smoothRotation frequency prev (some raw) = some v ∧
      0 ≤ v ∧ v < 360 ∧ min |v - prev| (360 - |v - prev|) ≤ 55 / (frequency : ℚ) := by
  have hfQ : (1 : ℚ) ≤ (frequency : ℚ) := by exact_mod_cast hf
  set m : ℚ := 55 / (frequency : ℚ) with hmdef
  have hm0 : 0 < m := div_pos (by norm_num) (by linarith)
  have hm55 : m ≤ 55 := div_le_self (by norm_num) hfQ
  have hne : prev ≠ -1 := by
    intro h
    rw [h] at hp0
    norm_num at hp0
  have hunfold : smoothRotation frequency prev (some raw) =
      some (smoothRenorm (smoothClamp m (smoothWrap raw prev))) := by
    simp only [smoothRotation]
    rw [if_pos hne]
  refine ⟨smoothRenorm (smoothClamp m (smoothWrap raw prev)), hunfold, ?_⟩
  have hclamp := smoothClamp_spec m (smoothWrap raw prev) (le_of_lt hm0)
  rcases smoothWrap_spec raw prev with hw | hw | hw
  -- case: pair unchanged
  · rw [hw] at hclamp ⊢
    set r := smoothClamp m (raw, prev) with hr
    have h1' : min raw prev ≤ r := hclamp.1
    have h2' : r ≤ max raw prev := hclamp.2.1
    have hdist : |r - prev| ≤ m := hclamp.2.2
    have hrlo : 0 ≤ r := le_trans (le_min h0 hp0) h1'
    have hrhi : r < 720 := lt_of_le_of_lt h2' (max_lt (by linarith) (by linarith))
    unfold smoothRenorm
    split_ifs with hge
    · refine ⟨by linarith, by linarith, ?_⟩
      exact wrapDist_of_shift _ prev (r - prev) m (by linarith) (by linarith)
        hp0 hp1 hdist (by linarith) (Or.inr (Or.inr (by ring)))
    · push_neg at hge
      refine ⟨hrlo, hge, ?_⟩
      exact wrapDist_of_shift _ prev (r - prev) m hrlo hge hp0 hp1
        hdist (by linarith) (Or.inl rfl)
  -- case: 360 added to the rotation
  · rw [hw] at hclamp ⊢
    set r := smoothClamp m (raw + 360, prev) with hr
    have h1' : min (raw + 360) prev ≤ r := hclamp.1
    have h2' : r ≤ max (raw + 360) prev := hclamp.2.1
    have hdist : |r - prev| ≤ m := hclamp.2.2
    have hrlo : 0 ≤ r := le_trans (le_min (by linarith) hp0) h1'
    have hrhi : r < 720 := lt_of_le_of_lt h2' (max_lt (by linarith) (by linarith))
    unfold smoothRenorm
    split_ifs with hge
    · refine ⟨by linarith, by linarith, ?_⟩
      exact wrapDist_of_shift _ prev (r - prev) m (by linarith) (by linarith)
        hp0 hp1 hdist (by linarith) (Or.inr (Or.inr (by ring)))
    · push_neg at hge
      refine ⟨hrlo, hge, ?_⟩
      exact wrapDist_of_shift _ prev (r - prev) m hrlo hge hp0 hp1
        hdist (by linarith) (Or.inl rfl)
  -- case: 360 added to the previous rotation
  · rw [hw] at hclamp ⊢
    set r := smoothClamp m (raw, prev + 360) with hr
    have h1' : min raw (prev + 360) ≤ r := hclamp.1
    have h2' : r ≤ max raw (prev + 360) := hclamp.2.1
    have hdist : |r - (prev + 360)| ≤ m := hclamp.2.2
    have hrlo : 0 ≤ r := le_trans (le_min h0 (by linarith)) h1'
    have hrhi : r < 720 := lt_of_le_of_lt h2' (max_lt (by linarith) (by linarith))
    unfold smoothRenorm
    split_ifs with hge
    · refine ⟨by linarith, by linarith, ?_⟩
      exact wrapDist_of_shift _ prev (r - (prev + 360)) m (by linarith)
        (by linarith) hp0 hp1 hdist (by linarith) (Or.inl (by ring))
    · push_neg at hge
      refine ⟨hrlo, hge, ?_⟩
      exact wrapDist_of_shift _ prev (r - (prev + 360)) m hrlo hge hp0 hp1
        hdist (by linarith) (Or.inr (Or.inl (by ring)))

/-- When the two joints coincide in X and in Z, the unconditional
quotient is 0/0 (NaN), and the raw rotation is NaN. -/
lemma rotationRaw_coincident (atanDeg : ℚ → ℚ) (r l : Joint)
    (hx : r.info.position.X = l.info.position.X)
    (hz : r.info.position.Z = l.info.position.Z) :
    rotationRaw atanDeg r l = none := by
  simp only [rotationRaw]
  rw [if_neg (by rintro ⟨h1, h2⟩; rw [hx] at h2; exact lt_irrefl _ h2),
      if_neg (by rintro ⟨h1, h2⟩; rw [hz] at h2; exact lt_irrefl _ h2),
      if_neg (by rintro ⟨h1, h2⟩; rw [hx] at h2; exact lt_irrefl _ h2),
      if_neg (by rintro ⟨h1, h2⟩; rw [hz] at h2; exact lt_irrefl _ h2),
      if_neg (by rw [hz]; exact lt_irrefl _),
      if_neg (by rw [hx]; exact lt_irrefl _),
      if_pos (by rw [hx, sub_self, abs_zero]),
      if_pos (by rw [hz, sub_self, abs_zero])]
  rfl

/-- Totality and range of the raw-rotation case analysis: whenever the
two joints differ in X or in Z, some value in [0, 360) is assigned (in
particular the -1.0 placeholder is unreachable). -/
lemma rotationRaw_range (atanDeg : ℚ → ℚ)
    (hA : ∀ q, 0 ≤ q → 0 ≤ atanDeg q ∧ atanDeg q < 90)
    (hApos : ∀ q, 0 < q → 0 < atanDeg q) (r l : Joint)
    (hne : r.info.position.X ≠ l.info.position.X ∨
           r.info.position.Z ≠ l.info.position.Z) :
    ∃ v, rotationRaw atanDeg r l = some v ∧ 0 ≤ v ∧ v < 360 := by
  simp only [rotationRaw]
  set rz := r.info.position.Z with hrz
  set lz := l.info.position.Z with hlz
  set rx := r.info.position.X with hrx
  set lx := l.info.position.X with hlx
  rcases lt_trichotomy rz lz with hz | hz | hz
  -- rz < lz: quadrants 0-180 (or the 90-degree axis case)
  · rw [if_neg (by rintro ⟨h1, h2⟩; rw [h1] at hz; exact lt_irrefl _ hz),
        if_neg (by rintro ⟨h1, h2⟩; exact absurd hz (not_lt.mpr (le_of_lt h2))),
        if_neg (by rintro ⟨h1, h2⟩; rw [h1] at hz; exact lt_irrefl _ hz)]
    by_cases hx : rx = lx
    · rw [if_pos ⟨hx, hz⟩]
      exact ⟨90, rfl, by norm_num, by norm_num⟩
    · rw [if_neg (by rintro ⟨h1, h2⟩; exact hx h1), if_pos hz]
      have habs : ¬(|rx - lx| = 0) := by
        simpa [abs_eq_zero, sub_eq_zero] using hx
      have hq0 : 0 ≤ |rz - lz| / |rx - lx| :=
        div_nonneg (abs_nonneg _) (abs_nonneg _)
      have ha := hA _ hq0
      rcases lt_or_gt_of_ne hx with hlt | hgt
      · rw [if_neg (not_lt.mpr (le_of_lt hlt)), if_neg habs]
        simp only [Option.map_some']
        exact ⟨_, rfl, by linarith [ha.1, ha.2], by linarith [ha.1, ha.2]⟩
      · rw [if_pos hgt, if_neg habs]
        exact ⟨_, rfl, ha.1, by linarith [ha.2]⟩
  -- rz = lz: the 0- or 180-degree axis cases
  · have hx : rx ≠ lx := by
      rcases hne with h | h
      · exact h
      · exact absurd hz h
    rcases lt_or_gt_of_ne hx with hlt | hgt
    · rw [if_neg (by rintro ⟨h1, h2⟩; exact absurd h2 (not_lt.mpr (le_of_lt hlt))),
          if_neg (by rintro ⟨h1, h2⟩; exact hx h1),
          if_pos ⟨hz, hlt⟩]
      exact ⟨180, rfl, by norm_num, by norm_num⟩
    · rw [if_pos ⟨hz, hgt⟩]
      exact ⟨0, rfl, le_refl _, by norm_num⟩
  -- rz > lz: quadrants 180-360 (or the 90-degree axis case)
  · rw [if_neg (by rintro ⟨h1, h2⟩; rw [h1] at hz; exact lt_irrefl _ hz)]
    by_cases hx : rx = lx
    · rw [if_pos ⟨hx, hz⟩]
      exact ⟨90, rfl, by norm_num, by norm_num⟩
    · rw [if_neg (by rintro ⟨h1, h2⟩; exact hx h1),
          if_neg (by rintro ⟨h1, h2⟩; rw [h1] at hz; exact lt_irrefl _ hz),
          if_neg (by rintro ⟨h1, h2⟩; exact absurd hz (not_lt.mpr (le_of_lt h2))),
          if_neg (not_lt.mpr (le_of_lt hz))]
      have habs : ¬(|rx - lx| = 0) := by
        simpa [abs_eq_zero, sub_eq_zero] using hx
      have hq0 : 0 ≤ |rz - lz| / |rx - lx| :=
        div_nonneg (abs_nonneg _) (abs_nonneg _)
      have ha := hA _ hq0
      rcases lt_or_gt_of_ne hx with hlt | hgt
      · rw [if_pos hlt, if_neg habs]
        simp only [Option.map_some']
        exact ⟨_, rfl, by linarith [ha.1], by linarith [ha.2]⟩
      · rw [if_neg (not_lt.mpr (le_of_lt hgt)), if_neg habs]
        simp only [Option.map_some']
        have hqpos : 0 < |rz - lz| / |rx - lx| := by
          apply div_pos
          · rw [abs_pos, sub_ne_zero]
            exact ne_of_gt hz
          · rw [abs_pos, sub_ne_zero]
            exact hx
        have hapos := hApos _ hqpos
        exact ⟨_, rfl, by linarith [ha.2], by linarith⟩

/-- An acceptable joint sitting at the origin, and one at X = 1: inputs
for the counterexamples and witnesses below. -/
def originJoint : Joint := ⟨true, ⟨1, ⟨0, 0, 0⟩⟩⟩

/-- An acceptable joint at X = 1 (same Y and Z as `originJoint`). -/
def unitXJoint : Joint := ⟨true, ⟨1, ⟨1, 0, 0⟩⟩⟩

/-- An acceptable joint at Z = 1 (same X and Y as `originJoint`). -/
def unitZJoint : Joint := ⟨true, ⟨1, ⟨0, 0, 1⟩⟩⟩

/-- Counterexample to C1 as stated: two acceptable joints at the same
position (equal X and Z) make the unconditional quotient 0/0, i.e. NaN;
the NaN propagates and `rotationFrom2Joints` returns NaN (`none`) rather
than a value in [0, 360), even with frequency 1 and previous rotation 0. -/
theorem claim_C1_counterexample :
    isJointAcceptable originJoint = true ∧
    (rotationFrom2Joints (fun q => if q ≤ 0 then 0 else 45) 1
      originJoint originJoint 0).1 = none := by
  have hacc : isJointAcceptable originJoint = true := by
    simp [isJointAcceptable, originJoint]
    norm_num
  refine ⟨hacc, ?_⟩
  simp only [rotationFrom2Joints]
  rw [if_pos (by rw [hacc]; rfl)]
  rw [rotationRaw_coincident _ _ _ rfl rfl]
  rfl

/-- Claim C1, amended: for every positive frequency, every pair of
acceptable joints whose positions differ in X or in Z, and every previous
rotation in [0, 360), the rotation returned by `rotationFrom2Joints`
lies in [0, 360) and its wrap-aware distance from the previous rotation
is at most 55/frequency degrees. -/
theorem claim_C1_rotation_smoothing (atanDeg : ℚ → ℚ)
    (hA : ∀ q, 0 ≤ q → 0 ≤ atanDeg q ∧ atanDeg q < 90)
    (hApos : ∀ q, 0 < q → 0 < atanDeg q)
    (frequency : ℤ) (hf : 0 < frequency) (r l : Joint)
    (hr : isJointAcceptable r = true) (hl : isJointAcceptable l = true)
    (hne : r.info.position.X ≠ l.info.position.X ∨
           r.info.position.Z ≠ l.info.position.Z)
    (prev : ℚ) (hp0 : 0 ≤ prev) (hp1 : prev < 360) :
    ∃ v, (rotationFrom2Joints atanDeg frequency r l prev).1 = some v ∧
      0 ≤ v ∧ v < 360 ∧
      min |v - prev| (360 - |v - prev|) ≤ 55 / (frequency : ℚ) := by
  obtain ⟨raw, hraw, h0, h1⟩ := rotationRaw_range atanDeg hA hApos r l hne
  obtain ⟨v, hv, hb0, hb1, hb2⟩ :=
    smoothRotation_bound frequency hf raw prev h0 h1 hp0 hp1
  refine ⟨v, ?_, hb0, hb1, hb2⟩
  simp only [rotationFrom2Joints]
  rw [if_pos (by rw [hr, hl]; rfl)]
  rw [show (smoothRotation frequency prev (rotationRaw atanDeg r l),
        (l.info.fConfidence + 1) * (r.info.fConfidence + 1)).1
      = smoothRotation frequency prev (rotationRaw atanDeg r l) from rfl,
    hraw, hv]

/-- Witness for the amended C1 at joints (1,0,0) and (0,0,0), frequency
1 and previous rotation 300. -/
theorem claim_C1_rotation_smoothing_witness :
    ∃ v, (rotationFrom2Joints (fun q => if q ≤ 0 then 0 else 45) 1
        unitXJoint originJoint 300).1 = some v ∧
      0 ≤ v ∧ v < 360 ∧
      min |v - 300| (360 - |v - 300|) ≤ 55 / ((1 : ℤ) : ℚ) :=
  claim_C1_rotation_smoothing (fun q => if q ≤ 0 then 0 else 45)
    (by intro q hq; dsimp only; constructor <;> split_ifs <;> norm_num)
    (by intro q hq; dsimp only; rw [if_neg (not_le.mpr hq)]; norm_num)
    1 (by norm_num) unitXJoint originJoint
    (by simp [isJointAcceptable, unitXJoint]; norm_num)
    (by simp [isJointAcceptable, originJoint]; norm_num)
    (by left; simp [unitXJoint, originJoint])
    300 (by norm_num) (by norm_num)

/-- Counterexample to C10 as stated: two acceptable joints with equal X
coordinates (here differing in Z) make the divisor `|right.X - left.X|`
of the unconditionally evaluated quotient equal to zero. -/
theorem claim_C10_counterexample :
    isJointAcceptable unitZJoint = true ∧
    isJointAcceptable originJoint = true ∧
    |unitZJoint.info.position.X - originJoint.info.position.X| = 0 := by
  refine ⟨?_, ?_, ?_⟩
  · simp [isJointAcceptable, unitZJoint]
    norm_num
  · simp [isJointAcceptable, originJoint]
    norm_num
  · simp [unitZJoint, originJoint]

/-- Claim C10, amended: for acceptable joints the quadrant case analysis
always overwrites the -1.0 placeholder; the divisor of the unconditional
quotient is zero exactly when the X coordinates coincide; when the
positions coincide in X and Z the 0/0 quotient makes the rotation NaN,
and in every other case the assigned value lies in [0, 360). -/
theorem claim_C10_division_guard (atanDeg : ℚ → ℚ)
    (hA : ∀ q, 0 ≤ q → 0 ≤ atanDeg q ∧ atanDeg q < 90)
    (hApos : ∀ q, 0 < q → 0 < atanDeg q) (r l : Joint)
    (_hr : isJointAcceptable r = true) (_hl : isJointAcceptable l = true) :
    (|r.info.position.X - l.info.position.X| = 0 ↔
      r.info.position.X = l.info.position.X) ∧
    (r.info.position.X = l.info.position.X ∧
     r.info.position.Z = l.info.position.Z →
      rotationRaw atanDeg r l = none) ∧
    ((r.info.position.X ≠ l.info.position.X ∨
      r.info.position.Z ≠ l.info.position.Z) →
      ∃ v, rotationRaw atanDeg r l = some v ∧ 0 ≤ v ∧ v < 360) := by
  refine ⟨?_, ?_, ?_⟩
  · rw [abs_eq_zero, sub_eq_zero]
  · intro ⟨hx, hz⟩
    exact rotationRaw_coincident atanDeg r l hx hz
  · intro hne
    exact rotationRaw_range atanDeg hA hApos r l hne

/-- Witness for the amended C10 at joints (1,0,0) and (0,0,0). -/
theorem claim_C10_division_guard_witness :
    ∃ v, rotationRaw (fun q => if q ≤ 0 then 0 else 45)
        unitXJoint originJoint = some v ∧ 0 ≤ v ∧ v < 360 :=
  (claim_C10_division_guard (fun q => if q ≤ 0 then 0 else 45)
    (by intro q hq; dsimp only; constructor <;> split_ifs <;> norm_num)
    (by intro q hq; dsimp only; rw [if_neg (not_le.mpr hq)]; norm_num)
    unitXJoint originJoint
    (by simp [isJointAcceptable, unitXJoint]; norm_num)
    (by simp [isJointAcceptable, originJoint]; norm_num)).2.2
    (by left; simp [unitXJoint, originJoint])

/-- Witness for C5: concrete acceptable joints realizing the 0-degree
case (right at X 1, left at X 0, equal Z). -/
theorem claim_C5_axis_special_cases_witness :
    (rotationFrom2Joints (fun q => if q ≤ 0 then 0 else 45) 30
       ⟨true, ⟨1, ⟨1, 0, 0⟩⟩⟩ ⟨true, ⟨1, ⟨0, 0, 0⟩⟩⟩ (-1)).1 = some 0 :=
  (claim_C5_axis_special_cases (fun q => if q ≤ 0 then 0 else 45) 30
    ⟨true, ⟨1, ⟨1, 0, 0⟩⟩⟩ ⟨true, ⟨1, ⟨0, 0, 0⟩⟩⟩
    (by simp [isJointAcceptable]; norm_num)
    (by simp [isJointAcceptable]; norm_num)).1
    rfl (by norm_num)

end OpenNIUtil
